import Mathlib

/-!
# url_fetcher: a shallow embedding of `fetcher.go`

The program is a three stage pipeline: `readUrlFile` sends the URLs of a CSV
file on the `urls` channel, `findUrls` turns every URL into a `Page` with
`readUrl`, and `findTerm` counts and records the pages whose body matches the
search term.

Modelling choices.

* A Go channel is the record of what was sent on it so far together with a
  flag saying whether it has been closed (`Chan`).  Sending on a closed
  channel and closing a closed channel panic, as in Go.  A `for x := range c`
  loop receives the values sent in order and ends when `c` is closed; when `c`
  is never closed the loop blocks after the last value (`Status.blocked`).
* The outside world is a parameter: `http.Get` and `ioutil.ReadAll` are one
  oracle `Fetch`, `os.Open`, `csv.Reader.ReadAll` and `os.Create` are results
  handed to the functions, `regexp.MatchString` is a parameter of type
  `Matcher`.
* Where a statement depends on what the regular expression library does, the
  parameter is instantiated with a model of the fragment of the RE2 syntax
  that the program's own patterns use (see `Regexp`).  The case folding table
  of the library (`unicode.SimpleFold`) is a parameter of this model:
  `Regexp.MatchStringWith key`, where `key c` is the representative of the
  folding orbit of `c`.  `Regexp.MatchString` is the instance whose table
  holds the orbits of the ASCII letters.
* Lines printed on standard output (`debug`, `fmt.Printf`) are not part of the
  state.  `nUrls` and `nTerms` are natural numbers (a Go `int` cannot
  overflow here: it counts elements of a list held in memory).
-/

set_option autoImplicit false

namespace UrlFetcher

/-! ## The regular expression library (model of the fragment in use) -/

namespace Regexp

/-- One element of a compiled pattern of the modelled fragment. -/
inductive Tok where
  /-- A literal character; `fold` is the state of the `i` flag. -/
  | lit (c : Char) (fold : Bool)
  /-- The dot: any character but a newline. -/
  | any
  /-- The assertion `^`: at the beginning of the text. -/
  | bol
  /-- The assertion `$`: at the end of the text. -/
  | eol
  deriving DecidableEq, Repr

/-- The characters `regexp.QuoteMeta` escapes: the bytes of
the string ``\.+*?()|[]{}^$``. -/
def special (c : Char) : Bool :=
  c = '\\' || c = '.' || c = '+' || c = '*' || c = '?' || c = '(' || c = ')' ||
  c = '|' || c = '[' || c = ']' || c = '\x7b' || c = '\x7d' || c = '^' || c = '$'

/-- The function `regexp.QuoteMeta` on the characters of a string: a backslash is put in
front of every special character. -/
def quoteChars : List Char → List Char
  | [] => []
  | c :: cs => if special c then '\\' :: c :: quoteChars cs else c :: quoteChars cs

/-- The function `regexp.QuoteMeta`. -/
def QuoteMeta (s : String) : String := ⟨quoteChars s.data⟩

/-- ASCII letters and digits (`isalnum` of the parser). -/
def isalnum (c : Char) : Bool :=
  ('0' ≤ c && c ≤ '9') || ('A' ≤ c && c ≤ 'Z') || ('a' ≤ c && c ≤ 'z')

/-- A backslash followed by `c` stands for the literal `c` when `c` is an
ASCII character that is not a letter or a digit. -/
def escapable (c : Char) : Bool := decide (c.toNat < 128) && !isalnum c

/-- Where the parser is inside an escape sequence or a flag group. -/
inductive Mode where
  /-- Between two elements of the pattern. -/
  | normal
  /-- After a backslash. -/
  | escape
  /-- After `(`. -/
  | group1
  /-- After `(?`. -/
  | group2
  /-- After `(?i`. -/
  | group3
  deriving DecidableEq, Repr

/-- Parser of the fragment, one character at a time: literals, escaped
punctuation, `.`, `^`, `$` and the flag group `(?i)`.  Repetition,
alternation, groups, classes and the other escapes are outside the fragment
and reported as an error. -/
def parseFrom : Mode → Bool → List Char → Except String (List Tok)
  | .normal, _, [] => .ok []
  | .escape, _, [] => .error "trailing backslash at end of expression"
  | _, _, [] => .error "missing closing )"
  | .normal, fold, c :: rest =>
    if c = '\\' then parseFrom .escape fold rest
    else if c = '(' then parseFrom .group1 fold rest
    else if c = '.' then (parseFrom .normal fold rest).map (Tok.any :: ·)
    else if c = '^' then (parseFrom .normal fold rest).map (Tok.bol :: ·)
    else if c = '$' then (parseFrom .normal fold rest).map (Tok.eol :: ·)
    else if special c then .error "operator outside the fragment"
    else (parseFrom .normal fold rest).map (Tok.lit c fold :: ·)
  | .escape, fold, d :: rest =>
    if escapable d then (parseFrom .normal fold rest).map (Tok.lit d fold :: ·)
    else .error "escape sequence outside the fragment"
  | .group1, fold, c :: rest =>
    if c = '?' then parseFrom .group2 fold rest else .error "group outside the fragment"
  | .group2, fold, c :: rest =>
    if c = 'i' then parseFrom .group3 fold rest else .error "flag outside the fragment"
  | .group3, _, c :: rest =>
    if c = ')' then parseFrom .normal true rest else .error "flag outside the fragment"

/-- Parse a whole pattern, the `i` flag being `fold` at its beginning. -/
def parse (fold : Bool) (pattern : List Char) : Except String (List Tok) :=
  parseFrom .normal fold pattern

/-- Does the literal `c` of the pattern match the character `d` of the text?
Under the `i` flag it does when both are in the same case folding orbit, that
is when the table `key` gives them the same representative. -/
def litMatches (key : Char → Char) (c : Char) (fold : Bool) (d : Char) : Bool :=
  if fold then key c = key d else c = d

/-- Match the tokens at the current position: `atStart` says whether the
position is the beginning of the text, `text` is what is left of it. -/
def matchHere (key : Char → Char) : List Tok → Bool → List Char → Bool
  | [], _, _ => true
  | Tok.lit c fold :: ts, _, text =>
    match text with
    | [] => false
    | d :: rest => litMatches key c fold d && matchHere key ts false rest
  | Tok.any :: ts, _, text =>
    match text with
    | [] => false
    | d :: rest => d ≠ '\n' && matchHere key ts false rest
  | Tok.bol :: ts, atStart, text => atStart && matchHere key ts atStart text
  | Tok.eol :: ts, atStart, text => text.isEmpty && matchHere key ts atStart text

/-- Unanchored search: the tokens match at some position of the text. -/
def search (key : Char → Char) (ts : List Tok) : Bool → List Char → Bool
  | atStart, [] => matchHere key ts atStart []
  | atStart, d :: rest => matchHere key ts atStart (d :: rest) || search key ts false rest

/-- The function `regexp.MatchString` for a case folding table `key`: compile
the pattern, then report whether the text contains a match; a pattern that
does not compile is an error. -/
def MatchStringWith (key : Char → Char) (pattern : String) (s : String) :
    Except String Bool :=
  match parse false pattern.data with
  | .error e => .error e
  | .ok ts => .ok (search key ts true s.data)

/-- The part of the case folding table that concerns ASCII text: the
representative of the orbit of an ASCII letter is the lower case letter, the
orbit of `k` also holds the Kelvin sign U+212A and the orbit of `s` the long s
U+017F.  Every other character is left alone in its orbit, so this table folds
no more than the table of the library does, and the same when the pattern is
ASCII text.  `Char.toLower` maps `A`-`Z` to `a`-`z` and leaves every other
character as it is. -/
def foldKey (c : Char) : Char :=
  if c.toLower = Char.ofNat 0x212A then 'k'
  else if c.toLower = Char.ofNat 0x017F then 's'
  else c.toLower

/-- The function `regexp.MatchString` with the table `foldKey`. -/
def MatchString (pattern : String) (s : String) : Except String Bool :=
  MatchStringWith foldKey pattern s

end Regexp

/-! ## The program -/

/-- The type of `regexp.MatchString`: pattern, text, and the pair of results
(`matched`, `err`) as one value: `.ok matched` when `err` is nil. -/
abbrev Matcher := String → String → Except String Bool

/-- The first result of `regexp.MatchString`; it is `false` when the second
one is an error. -/
def matchOf : Except String Bool → Bool
  | .ok m => m
  | .error _ => false

/-- The test `err == nil` on the second result of `regexp.MatchString`. -/
def errNil : Except String Bool → Bool
  | .ok _ => true
  | .error _ => false

/-- The fetch oracle: `http.Get` on a URL gives an error text or a response,
and `ioutil.ReadAll` on the body of the response gives an error text or the
bytes read, as text. -/
abbrev Fetch := String → Except String (Except String String)

/-- The constant `NoLimit`: no limit on the number of urls crawled. -/
def NoLimit : Int := -1

/-- Structure of a discovered page. -/
structure Page where
  url : String
  body : String
  err : Bool
  deriving DecidableEq, Repr

/-- How a function of the program ends: it returns, it waits for ever on a
channel, or it panics. -/
inductive Status where
  | returned
  | blocked
  | panicked
  deriving DecidableEq, Repr

/-- A channel: the values sent on it so far, oldest first, and whether it has
been closed. -/
structure Chan (α : Type) where
  sent : List α
  closed : Bool
  deriving DecidableEq, Repr

/-- The channel `make(chan α)` gives: nothing sent, open. -/
def Chan.make {α : Type} : Chan α := ⟨[], false⟩

/-- The statement `c <- v`; `none` is the panic of a send on a closed
channel. -/
def Chan.send {α : Type} (c : Chan α) (v : α) : Option (Chan α) :=
  if c.closed then none else some ⟨c.sent ++ [v], false⟩

/-- The statement `close(c)`; `none` is the panic of the close of a closed
channel. -/
def Chan.close {α : Type} (c : Chan α) : Option (Chan α) :=
  if c.closed then none else some ⟨c.sent, true⟩

/-- Lines 43-45 of `readUrl`: the value of the variable `url` that is then
passed to `http.Get` and stored in the page. -/
def normalizeUrl (re : Matcher) (url : String) : String :=
  if matchOf (re "^http" url) != true then "http://" ++ url else url

/-- Reads a single url into internal representation. -/
def readUrl (re : Matcher) (get : Fetch) (url : String) : Page :=
  let url := normalizeUrl re url
  match get url with
  | .error e => ⟨url, e, true⟩
  | .ok resp =>
    match resp with
    | .error e => ⟨url, e, true⟩
    | .ok bytes => ⟨url, bytes, false⟩

/-- The loop `for url := range urls` of `findUrls` over the urls received. -/
def findUrlsLoop (re : Matcher) (get : Fetch) :
    List String → Chan Page → Status × Chan Page
  | [], pages => (.returned, pages)
  | url :: rest, pages =>
    match pages.send (readUrl re get url) with
    | none => (.panicked, pages)
    | some pages1 => findUrlsLoop re get rest pages1

/-- Parses all urls provided into objects: `urls` is the history of the
channel it receives from, `pages` the channel it sends on. -/
def findUrls (re : Matcher) (get : Fetch) (urls : Chan String) (pages : Chan Page) :
    Status × Chan Page :=
  match findUrlsLoop re get urls.sent pages with
  | (.returned, pages1) =>
    if urls.closed then
      match pages1.close with
      | none => (.panicked, pages1)
      | some pages2 => (.returned, pages2)
    else (.blocked, pages1)
  | r => r

/-- The constant `urlFieldName` of `readUrlFile`. -/
def urlFieldName : String := "URL"

/-- The loop over `rawCSV` of `readUrlFile`.  The test `err != nil` inside the
loop is always false there (the function has returned otherwise), so the
`else` branch is the body.  `each[1]` panics on a record with fewer than two
fields. -/
def readUrlFileLoop (limit : Int) :
    List (List String) → Nat → Chan String → Status × Chan String
  | [], _, urls => (.returned, urls)
  | each :: rest, nUrls, urls =>
    if limit ≠ NoLimit ∧ (nUrls : Int) ≥ limit then (.returned, urls)
    else
      match each[1]? with
      | none => (.panicked, urls)
      | some url =>
        if url ≠ urlFieldName then
          match urls.send url with
          | none => (.panicked, urls)
          | some urls1 => readUrlFileLoop limit rest (nUrls + 1) urls1
        else readUrlFileLoop limit rest nUrls urls

/-- Reads file of urls into channels for downloading.  `osOpen` is `os.Open`
(the contents of the file or an error), `readAll` is `csv.Reader.ReadAll` on
these contents. -/
def readUrlFile (osOpen : String → Except String String)
    (readAll : String → Except String (List (List String)))
    (infile : String) (urls : Chan String) (limit : Int) : Status × Chan String :=
  match osOpen infile with
  | .error _ => (.returned, urls)
  | .ok file =>
    match readAll file with
    | .error _ => (.returned, urls)
    | .ok rawCSV =>
      match readUrlFileLoop limit rawCSV 0 urls with
      | (.returned, urls1) =>
        match urls1.close with
        | none => (.panicked, urls1)
        | some urls2 => (.returned, urls2)
      | r => r

/-- Simple test if a regex term is found in a section of text. -/
def hasTerm (re : Matcher) (regex : String) (body : String) : Bool :=
  let r := re regex body
  matchOf r && errNil r

/-- The loop `for page := range pages` of `findTerm`: the counter `nTerms`
and the strings written to `outfile` with `WriteString`, in order. -/
def findTermLoop (re : Matcher) (regex : String) :
    List Page → Nat → List String → Nat × List String
  | [], nTerms, outfile => (nTerms, outfile)
  | page :: rest, nTerms, outfile =>
    if !page.err && hasTerm re regex page.body then
      findTermLoop re regex rest (nTerms + 1) (outfile ++ [page.url ++ " has term\n"])
    else findTermLoop re regex rest nTerms outfile

/-- What `findTerm` leaves behind. -/
structure TermRun where
  status : Status
  nTerms : Nat
  outfile : List String
  done : Chan Bool
  deriving DecidableEq, Repr

/-- Finds the search term in all pages. -/
def findTerm (re : Matcher) (regex : String) (pages : Chan Page)
    (outfile : List String) (done : Chan Bool) : TermRun :=
  match findTermLoop re regex pages.sent 0 outfile with
  | (nTerms, outfile1) =>
    if pages.closed then
      match done.send true with
      | none => ⟨.panicked, nTerms, outfile1, done⟩
      | some done1 => ⟨.returned, nTerms, outfile1, done1⟩
    else ⟨.blocked, nTerms, outfile1, done⟩

/-- The run parameters after `flag.Parse`. -/
structure Flags where
  infile : String
  term : String
  limit : Int
  outfile : String
  deriving DecidableEq, Repr

/-- The constant `NoTerm` of `main`. -/
def NoTerm : String := "[NO TERM]"

/-- The constant `OutfileName` of `main`. -/
def OutfileName : String := "results.txt"

/-- The value of every flag that is not on the command line. -/
def Flags.defaults : Flags := ⟨"urls.txt", NoTerm, NoLimit, OutfileName⟩

/-- The collaborators of `main`. -/
structure World where
  MatchString : Matcher
  QuoteMeta : String → String
  Get : Fetch
  Open : String → Except String String
  ReadAll : String → Except String (List (List String))
  Create : String → Except String Unit

/-- How a run of `main` ends. -/
inductive Exit where
  /-- No search term: the message is printed and `main` returns. -/
  | noTerm
  /-- The result file could not be created. -/
  | noOutfile
  /-- The completion signal was received and `done` printed. -/
  | done
  /-- Every goroutine waits on a channel. -/
  | deadlock
  /-- A goroutine panicked. -/
  | crashed
  deriving DecidableEq, Repr

/-- What a run of `main` leaves behind: the paths handed to `os.Create`, the
strings written to the result file and the final count.  When the run
crashes, what reached the file is some prefix of `outfile`. -/
structure Run where
  exit : Exit
  created : List String
  outfile : List String
  nTerms : Nat
  deriving DecidableEq, Repr

/-- The pattern `main` builds from the search term. -/
def escaped (quoteMeta : String → String) (searchTerm : String) : String :=
  "(?i)" ++ quoteMeta searchTerm

/-- The main function.  The three goroutines are composed in sequence: each
one is a function of the history of the channel it reads. -/
def main (w : World) (flags : Flags) : Run :=
  if flags.term == NoTerm then ⟨.noTerm, [], [], 0⟩
  else
    match w.Create "results.txt" with
    | .error _ => ⟨.noOutfile, [], [], 0⟩
    | .ok _ =>
      let source := readUrlFile w.Open w.ReadAll flags.infile Chan.make flags.limit
      let fetcher := findUrls w.MatchString w.Get source.2 Chan.make
      let matcher := findTerm w.MatchString (escaped w.QuoteMeta flags.term) fetcher.2 [] Chan.make
      let exit :=
        if source.1 = .panicked ∨ fetcher.1 = .panicked ∨ matcher.status = .panicked then
          Exit.crashed
        else if matcher.status = .returned then Exit.done
        else Exit.deadlock
      ⟨exit, ["results.txt"], matcher.outfile, matcher.nTerms⟩

/-! ## Definitions used to state the properties -/

/-- The notice `findTerm` writes for a url. -/
def notice (url : String) : String := url ++ " has term\n"

/-- A page that `findTerm` counts: not failed, and its body has the term. -/
def counted (re : Matcher) (regex : String) (page : Page) : Bool :=
  !page.err && hasTerm re regex page.body

/-- The second fields of the records that differ from the header label, in
record order. -/
def urlColumn (records : List (List String)) : List String :=
  (records.filterMap fun each => each[1]?).filter fun url => url ≠ urlFieldName

/-- The body `b` contains a substring that equals the term `t` up to ASCII
letter case. -/
def containsUpToCase (t b : String) : Prop :=
  ∃ pre mid post, b.data = pre ++ mid ++ post ∧
    mid.map Char.toLower = t.data.map Char.toLower

/-! ## The fetcher stage -/

theorem findUrlsLoop_open (re : Matcher) (get : Fetch) (urls : List String) :
    ∀ pages : Chan Page, pages.closed = false →
      findUrlsLoop re get urls pages
        = (.returned, ⟨pages.sent ++ urls.map (readUrl re get), false⟩) := by
  induction urls with
  | nil =>
    intro pages h
    cases pages
    simp_all [findUrlsLoop]
  | cons url rest ih =>
    intro pages h
    simp [findUrlsLoop, Chan.send, h, ih]

theorem findUrls_closed (re : Matcher) (get : Fetch) (urls : List String) :
    findUrls re get ⟨urls, true⟩ Chan.make
      = (.returned, ⟨urls.map (readUrl re get), true⟩) := by
  simp [findUrls, findUrlsLoop_open, Chan.make, Chan.close]

/-- C1: for every finite sequence of urls received on the `urls` channel
(sent, then the channel closed), `findUrls` returns, the `pages` channel is
closed, exactly as many pages were sent on it as urls were received, and the
page at every position is `readUrl` of the url at that position, whatever
the fetch oracle answers. -/
theorem findUrls_one_page_per_url (re : Matcher) (get : Fetch) (urls : List String) :
    (findUrls re get ⟨urls, true⟩ Chan.make).1 = Status.returned ∧
    (findUrls re get ⟨urls, true⟩ Chan.make).2.closed = true ∧
    (findUrls re get ⟨urls, true⟩ Chan.make).2.sent.length = urls.length ∧
    ∀ i : Nat, (findUrls re get ⟨urls, true⟩ Chan.make).2.sent[i]?
      = (urls[i]?).map (readUrl re get) := by
  rw [findUrls_closed]
  simp

/-! ## The matcher stage -/

theorem findTermLoop_eq (re : Matcher) (regex : String) (pages : List Page) :
    ∀ (nTerms : Nat) (outfile : List String),
      findTermLoop re regex pages nTerms outfile
        = (nTerms + (pages.filter (counted re regex)).length,
           outfile ++ (pages.filter (counted re regex)).map fun p => notice p.url) := by
  induction pages with
  | nil => intro n out; simp [findTermLoop]
  | cons page rest ih =>
    intro n out
    by_cases h : counted re regex page = true
    · have h2 : (!page.err && hasTerm re regex page.body) = true := h
      simp [findTermLoop, h2, h, ih, notice, Nat.add_assoc, Nat.add_comm 1]
    · have h2 : ¬ (!page.err && hasTerm re regex page.body) = true := h
      simp only [findTermLoop, h2, h, ih, List.filter_cons]
      simp

theorem findTerm_closed (re : Matcher) (regex : String) (pages : List Page) :
    findTerm re regex ⟨pages, true⟩ [] Chan.make
      = ⟨.returned, (pages.filter (counted re regex)).length,
         (pages.filter (counted re regex)).map (fun p => notice p.url), ⟨[true], false⟩⟩ := by
  simp [findTerm, findTermLoop_eq, Chan.make, Chan.send]

theorem notice_injective (u v : String) (h : notice u = notice v) : u = v := by
  have h2 := congrArg String.data h
  simp only [notice, String.data_append] at h2
  exact String.ext (List.append_cancel_right h2)

/-- C3: for every finite page sequence (sent, then the channel closed),
`findTerm` returns with `nTerms` equal to the number of pages that are not
failed and whose body has the term; what is written to the result file is
one line `<url> has term` for each of these pages, in order, so as many lines
as `nTerms`; a page with `err = true` changes neither the count
nor what is written, whatever its url and body are. -/
theorem findTerm_count (re : Matcher) (regex : String) (pages : List Page) :
    (findTerm re regex ⟨pages, true⟩ [] Chan.make).status = Status.returned ∧
    (findTerm re regex ⟨pages, true⟩ [] Chan.make).nTerms
      = (pages.filter fun p => !p.err && hasTerm re regex p.body).length ∧
    (findTerm re regex ⟨pages, true⟩ [] Chan.make).outfile
      = ((pages.filter fun p => !p.err && hasTerm re regex p.body).map
          fun p => p.url ++ " has term\n") ∧
    (findTerm re regex ⟨pages, true⟩ [] Chan.make).outfile.length
      = (findTerm re regex ⟨pages, true⟩ [] Chan.make).nTerms ∧
    ∀ (before after : List Page) (url body : String),
      (findTerm re regex ⟨before ++ ⟨url, body, true⟩ :: after, true⟩ [] Chan.make).nTerms
        = (findTerm re regex ⟨before ++ after, true⟩ [] Chan.make).nTerms ∧
      (findTerm re regex ⟨before ++ ⟨url, body, true⟩ :: after, true⟩ [] Chan.make).outfile
        = (findTerm re regex ⟨before ++ after, true⟩ [] Chan.make).outfile := by
  refine ⟨?_, ?_, ?_, ?_, ?_⟩
  · rw [findTerm_closed]
  · rw [findTerm_closed]; rfl
  · rw [findTerm_closed]; rfl
  · rw [findTerm_closed]; simp
  · intro before after url body
    have h : counted re regex ⟨url, body, true⟩ = false := by simp [counted]
    simp [findTerm_closed, List.filter_cons, h]

/-- C4, as stated, fails: two pages that carry the same url and both have the
term give two notices for that url. -/
theorem notice_once_counterexample :
    ¬ ∀ (re : Matcher) (regex : String) (pages : List Page) (u : String),
      (∃ p ∈ pages, p.url = u ∧ p.err = false ∧ hasTerm re regex p.body = true) →
      (findTerm re regex ⟨pages, true⟩ [] Chan.make).outfile.count (notice u) = 1 := by
  intro h
  have h2 := h Regexp.MatchString "(?i)cat"
    [⟨"http://a.com", "cat", false⟩, ⟨"http://a.com", "cat", false⟩] "http://a.com"
    ⟨⟨"http://a.com", "cat", false⟩, by simp, rfl, rfl, rfl⟩
  revert h2
  decide

/-- C4, amended: for every finite page sequence and every url `u`, the notice
of `u` is written once for every page that carries `u`, is not failed and has
the term: it occurs in the result file as many times as there are such
pages. -/
theorem notice_once_per_page (re : Matcher) (regex : String) (pages : List Page)
    (u : String) :
    (findTerm re regex ⟨pages, true⟩ [] Chan.make).outfile.count (notice u)
      = (pages.filter fun p =>
          decide (p.url = u) && (!p.err && hasTerm re regex p.body)).length := by
  rw [findTerm_closed]
  show List.count (notice u) (List.map (fun p => notice p.url) (pages.filter (counted re regex))) = _
  induction pages with
  | nil => simp
  | cons page rest ih =>
    by_cases hc : counted re regex page = true
    · have hc2 : (!page.err && hasTerm re regex page.body) = true := hc
      by_cases hu : page.url = u
      · simp [List.filter_cons, hc, hc2, hu, ih]
      · have hn : ¬ notice page.url = notice u := fun e => hu (notice_injective _ _ e)
        simp only [List.filter_cons, hc, hc2, hu, ih, if_true, List.map_cons,
          List.count_cons, decide_False, Bool.false_and]
        simp [hn]
    · have hc2 : ¬ (!page.err && hasTerm re regex page.body) = true := hc
      simp only [List.filter_cons, hc, hc2, ih, Bool.and_false]
      simp only [Bool.false_eq_true, if_false]
      exact ih

/-! ## The url source -/

theorem urlColumn_cons_url (each : List String) (rest : List (List String)) (url : String)
    (h1 : each[1]? = some url) (h2 : url ≠ urlFieldName) :
    urlColumn (each :: rest) = url :: urlColumn rest := by
  simp [urlColumn, List.filterMap_cons, h1, h2]

theorem urlColumn_cons_header (each : List String) (rest : List (List String))
    (h1 : each[1]? = some urlFieldName) :
    urlColumn (each :: rest) = urlColumn rest := by
  simp [urlColumn, List.filterMap_cons, h1]

theorem second_field (each : List String) (h : 2 ≤ each.length) :
    ∃ url, each[1]? = some url := by
  match each, h with
  | _ :: url :: _, _ => exact ⟨url, by simp⟩

theorem readUrlFileLoop_limit (K : Nat) (records : List (List String))
    (h : ∀ each ∈ records, 2 ≤ each.length) :
    ∀ (nUrls : Nat) (urls : Chan String), urls.closed = false →
      readUrlFileLoop K records nUrls urls
        = (.returned, ⟨urls.sent ++ (urlColumn records).take (K - nUrls), false⟩) := by
  induction records with
  | nil =>
    intro n urls hc
    cases urls
    simp_all [readUrlFileLoop, urlColumn]
  | cons each rest ih =>
    intro n urls hc
    have hK : (K : Int) ≠ NoLimit := by simp only [NoLimit]; omega
    obtain ⟨url, hurl⟩ := second_field each (h each (List.mem_cons_self _ _))
    have ih2 := ih (fun e he => h e (List.mem_cons_of_mem _ he))
    by_cases hn : K ≤ n
    · have hn2 : ((n : Int) ≥ (K : Int)) := by omega
      have h0 : K - n = 0 := by omega
      cases urls
      simp_all [readUrlFileLoop]
    · have hn2 : ¬ ((n : Int) ≥ (K : Int)) := by omega
      by_cases hu : url = urlFieldName
      · subst hu
        simp [readUrlFileLoop, hn2, hurl, ih2 n urls hc, urlColumn_cons_header each rest hurl]
      · have h1 : K - n = (K - (n + 1)) + 1 := by omega
        simp [readUrlFileLoop, hn2, hurl, hu, Chan.send, hc, ih2,
          urlColumn_cons_url each rest url hurl hu, h1, List.take_succ_cons]

theorem readUrlFileLoop_nolimit (records : List (List String))
    (h : ∀ each ∈ records, 2 ≤ each.length) :
    ∀ (nUrls : Nat) (urls : Chan String), urls.closed = false →
      readUrlFileLoop NoLimit records nUrls urls
        = (.returned, ⟨urls.sent ++ urlColumn records, false⟩) := by
  induction records with
  | nil =>
    intro n urls hc
    cases urls
    simp_all [readUrlFileLoop, urlColumn]
  | cons each rest ih =>
    intro n urls hc
    obtain ⟨url, hurl⟩ := second_field each (h each (List.mem_cons_self _ _))
    have ih2 := ih (fun e he => h e (List.mem_cons_of_mem _ he))
    by_cases hu : url = urlFieldName
    · subst hu
      simp [readUrlFileLoop, hurl, ih2 n urls hc, urlColumn_cons_header each rest hurl]
    · simp [readUrlFileLoop, hurl, hu, Chan.send, hc, ih2,
        urlColumn_cons_url each rest url hurl hu]

/-- C6: when the file opens and parses into records that all have at least
two fields, `readUrlFile` with a limit `K ≥ 0` returns having sent exactly the
first `min K |V|` elements of `V`, in order, and closed the channel, where
`V` is the list of second fields that differ from the header label (so at
most `K` urls are sent); with the limit `NoLimit` it sends all of `V`. -/
theorem readUrlFile_limit (osOpen : String → Except String String)
    (readAll : String → Except String (List (List String)))
    (infile file : String) (records : List (List String))
    (hopen : osOpen infile = .ok file) (hparse : readAll file = .ok records)
    (hfields : ∀ each ∈ records, 2 ≤ each.length) :
    (∀ K : Nat,
      readUrlFile osOpen readAll infile Chan.make K
        = (.returned, ⟨(urlColumn records).take K, true⟩) ∧
      ((urlColumn records).take K).length = min K (urlColumn records).length ∧
      ((urlColumn records).take K).length ≤ K) ∧
    readUrlFile osOpen readAll infile Chan.make NoLimit
      = (.returned, ⟨urlColumn records, true⟩) := by
  refine ⟨fun K => ⟨?_, ?_, ?_⟩, ?_⟩
  · simp [readUrlFile, hopen, hparse, readUrlFileLoop_limit K records hfields, Chan.make,
      Chan.close]
  · simp
  · simp
  · simp [readUrlFile, hopen, hparse, readUrlFileLoop_nolimit records hfields, Chan.make,
      Chan.close]

/-- Witness for C6: a file with a header and three urls, read with every limit
and without one. -/
theorem readUrlFile_limit_witness :
    (∀ K : Nat,
      readUrlFile (fun _ => .ok "csv")
          (fun _ => .ok [["1", "URL"], ["2", "a.com"], ["3", "b.org"], ["4", "c.net"]])
          "urls.txt" Chan.make K
        = (.returned, ⟨(urlColumn
            [["1", "URL"], ["2", "a.com"], ["3", "b.org"], ["4", "c.net"]]).take K, true⟩) ∧
      ((urlColumn [["1", "URL"], ["2", "a.com"], ["3", "b.org"], ["4", "c.net"]]).take K).length
        = min K (urlColumn
            [["1", "URL"], ["2", "a.com"], ["3", "b.org"], ["4", "c.net"]]).length ∧
      ((urlColumn [["1", "URL"], ["2", "a.com"], ["3", "b.org"], ["4", "c.net"]]).take K).length
        ≤ K) ∧
    readUrlFile (fun _ => .ok "csv")
        (fun _ => .ok [["1", "URL"], ["2", "a.com"], ["3", "b.org"], ["4", "c.net"]])
        "urls.txt" Chan.make NoLimit
      = (.returned, ⟨urlColumn
          [["1", "URL"], ["2", "a.com"], ["3", "b.org"], ["4", "c.net"]], true⟩) :=
  readUrlFile_limit (fun _ => .ok "csv")
    (fun _ => .ok [["1", "URL"], ["2", "a.com"], ["3", "b.org"], ["4", "c.net"]])
    "urls.txt" "csv" [["1", "URL"], ["2", "a.com"], ["3", "b.org"], ["4", "c.net"]]
    rfl rfl (by decide)

/-- C7, at the failing inputs: when the file cannot be opened, and when it
opens but cannot be parsed, `readUrlFile` returns with the `urls` channel
still open (it was closed zero times); `findUrls` then blocks in its loop
with the `pages` channel open, and `main` never receives the completion
signal.  On the two other paths the channel is closed. -/
theorem readUrlFile_failure_leaves_open (readAll : String → Except String (List (List String)))
    (infile file msg : String) (limit : Int) (re : Matcher) (get : Fetch) :
    readUrlFile (fun _ => .error msg) readAll infile Chan.make limit
      = (.returned, ⟨[], false⟩) ∧
    readUrlFile (fun _ => .ok file) (fun _ => .error msg) infile Chan.make limit
      = (.returned, ⟨[], false⟩) ∧
    findUrls re get ⟨[], false⟩ Chan.make = (.blocked, ⟨[], false⟩) ∧
    (∀ w : World,
      (main ⟨w.MatchString, w.QuoteMeta, w.Get, fun _ => .error msg, w.ReadAll,
          fun _ => .ok ()⟩ ⟨infile, "cat", limit, "results.txt"⟩).exit = Exit.deadlock) ∧
    readUrlFile (fun _ => .ok file) (fun _ => .ok [["1", "a.com"], ["2", "b.org"]])
        infile Chan.make NoLimit
      = (.returned, ⟨["a.com", "b.org"], true⟩) ∧
    readUrlFile (fun _ => .ok file) (fun _ => .ok [["1", "a.com"], ["2", "b.org"]])
        infile Chan.make 1
      = (.returned, ⟨["a.com"], true⟩) := by
  refine ⟨rfl, rfl, rfl, ?_, ?_, ?_⟩
  · intro w
    simp [main, readUrlFile, findUrls, findUrlsLoop, findTerm, findTermLoop, Chan.make, NoTerm]
  · rfl
  · rfl

/-- C8, at the failing input: a file whose records have one field (one url per
line) makes the access `each[1]` of the first iteration panic; nothing was
sent and the channel is not closed, and `main` crashes. -/
theorem readUrlFile_short_record_panics (infile file : String) (w : World) :
    readUrlFile (fun _ => .ok file) (fun _ => .ok [["example.com"]]) infile Chan.make NoLimit
      = (.panicked, ⟨[], false⟩) ∧
    readUrlFile (fun _ => .ok file)
        (fun _ => .ok [["a.com"], ["b.org"]]) infile Chan.make 1
      = (.panicked, ⟨[], false⟩) ∧
    (main ⟨w.MatchString, w.QuoteMeta, w.Get, fun _ => .ok file,
        fun _ => .ok [["example.com"]], fun _ => .ok ()⟩
      ⟨infile, "cat", NoLimit, "results.txt"⟩).exit = Exit.crashed := by
  refine ⟨rfl, rfl, ?_⟩
  simp [main, readUrlFile, readUrlFileLoop, NoTerm, NoLimit, Chan.make]

/-! ## The result file -/

/-- C10, at the failing input: with `-term cat -outfile out.txt` the only path
`main` hands to `os.Create` is `results.txt`, never `out.txt`; more generally
the run does not depend on the `outfile` parameter at all. -/
theorem main_ignores_outfile (w : World) :
    (main w ⟨"urls.txt", "cat", NoLimit, "out.txt"⟩).created
      = (match w.Create "results.txt" with
         | .ok _ => ["results.txt"]
         | .error _ => []) ∧
    "out.txt" ∉ (main w ⟨"urls.txt", "cat", NoLimit, "out.txt"⟩).created ∧
    ∀ (flags : Flags) (outfile : String),
      main w ⟨flags.infile, flags.term, flags.limit, outfile⟩ = main w flags := by
  refine ⟨?_, ?_, ?_⟩
  · simp only [main]
    cases w.Create "results.txt" <;> simp [NoTerm]
  · simp only [main]
    cases w.Create "results.txt" <;> simp [NoTerm]
  · intro flags outfile
    rfl

/-! ## The regular expression model -/

namespace Regexp

theorem special_escapable (c : Char) (h : special c = true) : escapable c = true := by
  simp only [special, Bool.or_eq_true, decide_eq_true_eq] at h
  rcases h with ((((((((((((h | h) | h) | h) | h) | h) | h) | h) | h) | h) | h) | h) | h) | h <;>
    subst h <;> decide

theorem parse_escape (fold : Bool) (d : Char) (rest : List Char) (h : escapable d = true) :
    parse fold ('\\' :: d :: rest) = (parse fold rest).map (Tok.lit d fold :: ·) := by
  simp [parse, parseFrom, h]

theorem parse_lit (fold : Bool) (c : Char) (rest : List Char) (hs : special c = false) :
    parse fold (c :: rest) = (parse fold rest).map (Tok.lit c fold :: ·) := by
  have hs2 := hs
  simp only [special, Bool.or_eq_false_iff, decide_eq_false_iff_not] at hs2
  obtain ⟨⟨⟨⟨⟨⟨⟨⟨⟨⟨⟨⟨⟨h1, h2⟩, _⟩, _⟩, _⟩, h6⟩, _⟩, _⟩, _⟩, _⟩, _⟩, _⟩, h13⟩, h14⟩ := hs2
  simp only [parse, parseFrom, h1, h2, h6, h13, h14, hs, if_false, Bool.false_eq_true]

theorem parse_quoteChars (t : List Char) :
    ∀ fold : Bool, parse fold (quoteChars t) = .ok (t.map fun c => Tok.lit c fold) := by
  induction t with
  | nil => intro fold; rfl
  | cons c cs ih =>
    intro fold
    cases hs : special c with
    | true =>
      simp only [quoteChars, hs, if_true, parse_escape fold c _ (special_escapable c hs), ih]
      rfl
    | false =>
      simp only [quoteChars, hs, parse_lit fold c _ hs, ih, Bool.false_eq_true, if_false]
      rfl

theorem escaped_data (t : String) :
    (escaped QuoteMeta t).data = '(' :: '?' :: 'i' :: ')' :: quoteChars t.data := by
  simp only [escaped, QuoteMeta, String.data_append]
  rfl

theorem MatchStringWith_escaped (key : Char → Char) (t b : String) :
    MatchStringWith key (escaped QuoteMeta t) b
      = .ok (search key (t.data.map fun c => Tok.lit c true) true b.data) := by
  have h : parse false ('(' :: '?' :: 'i' :: ')' :: quoteChars t.data)
      = parse true (quoteChars t.data) := rfl
  simp only [MatchStringWith, escaped_data, h, parse_quoteChars]

theorem matchHere_lits (key : Char → Char) (t : List Char) :
    ∀ (atStart : Bool) (text : List Char),
      matchHere key (t.map fun c => Tok.lit c true) atStart text = true ↔
        ∃ mid post, text = mid ++ post ∧ mid.map key = t.map key := by
  induction t with
  | nil =>
    intro a text
    simp only [List.map_nil, matchHere, true_iff]
    exact ⟨[], text, rfl, rfl⟩
  | cons c cs ih =>
    intro a text
    cases text with
    | nil =>
      simp only [List.map_cons, matchHere, Bool.false_eq_true, false_iff]
      rintro ⟨mid, post, h1, h2⟩
      have : mid = [] := by
        cases mid with
        | nil => rfl
        | cons _ _ => simp at h1
      subst this
      simp at h2
    | cons d rest =>
      simp only [List.map_cons, matchHere, Bool.and_eq_true, ih, litMatches, if_true,
        decide_eq_true_eq]
      constructor
      · rintro ⟨h1, mid, post, h2, h3⟩
        exact ⟨d :: mid, post, by simp [h2], by simp [h1, h3]⟩
      · rintro ⟨mid, post, h1, h2⟩
        cases mid with
        | nil => simp at h2
        | cons m mid =>
          simp only [List.cons_append, List.cons.injEq] at h1
          simp only [List.map_cons, List.cons.injEq] at h2
          obtain ⟨rfl, rfl⟩ := h1
          exact ⟨h2.1.symm, mid, post, rfl, h2.2⟩

theorem search_lits (key : Char → Char) (t : List Char) (text : List Char) :
    ∀ atStart : Bool,
      search key (t.map fun c => Tok.lit c true) atStart text = true ↔
        ∃ pre mid post, text = pre ++ mid ++ post ∧ mid.map key = t.map key := by
  induction text with
  | nil =>
    intro a
    simp only [search, matchHere_lits]
    constructor
    · rintro ⟨mid, post, h1, h2⟩
      exact ⟨[], mid, post, by simpa using h1, h2⟩
    · rintro ⟨pre, mid, post, h1, h2⟩
      have h3 : pre = [] := by
        cases pre with
        | nil => rfl
        | cons _ _ => simp at h1
      subst h3
      exact ⟨mid, post, by simpa using h1, h2⟩
  | cons d rest ih =>
    intro a
    simp only [search, Bool.or_eq_true, matchHere_lits, ih]
    constructor
    · rintro (⟨mid, post, h1, h2⟩ | ⟨pre, mid, post, h1, h2⟩)
      · exact ⟨[], mid, post, by simpa using h1, h2⟩
      · exact ⟨d :: pre, mid, post, by simp [h1], h2⟩
    · rintro ⟨pre, mid, post, h1, h2⟩
      cases pre with
      | nil => exact Or.inl ⟨mid, post, by simpa using h1, h2⟩
      | cons p pre =>
        simp only [List.cons_append, List.cons.injEq] at h1
        exact Or.inr ⟨pre, mid, post, h1.2, h2⟩

theorem matchHere_exact (key : Char → Char) (l : List Char) :
    ∀ (atStart : Bool) (text : List Char),
      matchHere key (l.map fun c => Tok.lit c false) atStart text = l.isPrefixOf text := by
  induction l with
  | nil => intro a text; simp [matchHere]
  | cons c cs ih =>
    intro a text
    cases text with
    | nil => simp [matchHere]
    | cons d rest =>
      simp only [List.map_cons, matchHere, ih, litMatches, List.isPrefixOf]
      simp [BEq.beq]

theorem search_bol_later (key : Char → Char) (ts : List Tok) (text : List Char) :
    search key (Tok.bol :: ts) false text = false := by
  induction text with
  | nil => simp [search, matchHere]
  | cons d rest ih => simp [search, matchHere, ih]

theorem matchHere_bol (key : Char → Char) (ts : List Tok) (atStart : Bool)
    (text : List Char) :
    matchHere key (Tok.bol :: ts) atStart text
      = (atStart && matchHere key ts atStart text) := by
  simp [matchHere]

theorem MatchString_http (u : String) :
    MatchString "^http" u = .ok (['h', 't', 't', 'p'].isPrefixOf u.data) := by
  have hp : parse false ("^http" : String).data
      = .ok (Tok.bol :: ['h', 't', 't', 'p'].map fun c => Tok.lit c false) := by
    rfl
  simp only [MatchString, MatchStringWith, hp]
  cases u.data with
  | nil => simp only [search, matchHere_bol, matchHere_exact, Bool.true_and]
  | cons d rest =>
    simp only [search, search_bol_later, Bool.or_false, matchHere_bol, Bool.true_and,
      matchHere_exact]

end Regexp

open Regexp

theorem hasTerm_escaped_iff (key : Char → Char) (t b : String) :
    hasTerm (MatchStringWith key) (escaped QuoteMeta t) b = true ↔
      ∃ pre mid post, b.data = pre ++ mid ++ post ∧
        mid.map key = t.data.map key := by
  simp only [hasTerm, MatchStringWith_escaped, matchOf, errNil, Bool.and_true, search_lits]

theorem hasTerm_escaped_of_upToCase (key : Char → Char)
    (hkey : ∀ c : Char, key c.toLower = key c) (t b : String) (h : containsUpToCase t b) :
    hasTerm (MatchStringWith key) (escaped QuoteMeta t) b = true := by
  obtain ⟨pre, mid, post, h1, h2⟩ := h
  have hk : key ∘ Char.toLower = key := funext hkey
  refine (hasTerm_escaped_iff key t b).2 ⟨pre, mid, post, h1, ?_⟩
  rw [← hk, ← List.map_map, ← List.map_map, h2]

theorem normalizeUrl_eq (u : String) :
    normalizeUrl MatchString u
      = if ['h', 't', 't', 'p'].isPrefixOf u.data then u else "http://" ++ u := by
  simp only [normalizeUrl, MatchString_http, matchOf]
  cases ['h', 't', 't', 'p'].isPrefixOf u.data <;> simp

theorem readUrl_url (re : Matcher) (get : Fetch) (u : String) :
    (readUrl re get u).url = normalizeUrl re u := by
  simp only [readUrl]
  cases get (normalizeUrl re u) with
  | error e => rfl
  | ok resp => cases resp <;> rfl

theorem foldKey_of_toLower (x y : List Char) (h : x.map Char.toLower = y.map Char.toLower) :
    x.map foldKey = y.map foldKey := by
  have hf : foldKey = (fun l : Char =>
      if l = Char.ofNat 0x212A then 'k' else if l = Char.ofNat 0x017F then 's' else l)
        ∘ Char.toLower := by
    funext c
    rfl
  rw [hf, ← List.map_map, ← List.map_map, h]

/-- C2, at the failing input: the url `httpbin.org` begins with neither
`http://` nor `https://`, yet `readUrl` fetches and stores it as it is, without
the scheme in front.  The test of `readUrl` is the pattern `^http`: the url is
left alone exactly when its first four characters are `http`, and gets
`http://` in front otherwise. -/
theorem readUrl_bare_http_host (get : Fetch) :
    ("http://".data.isPrefixOf "httpbin.org".data = false ∧
      "https://".data.isPrefixOf "httpbin.org".data = false) ∧
    normalizeUrl MatchString "httpbin.org" = "httpbin.org" ∧
    (readUrl MatchString get "httpbin.org").url = "httpbin.org" ∧
    (∀ u : String, normalizeUrl MatchString u
      = if ['h', 't', 't', 'p'].isPrefixOf u.data then u else "http://" ++ u) ∧
    ∀ u : String, (readUrl MatchString get u).url = normalizeUrl MatchString u := by
  refine ⟨⟨by decide, by decide⟩, ?_, ?_, normalizeUrl_eq, readUrl_url MatchString get⟩
  · rw [normalizeUrl_eq]; rfl
  · rw [readUrl_url, normalizeUrl_eq]; rfl

/-- C5: for every search term `t` and body `b`, if `b` contains a substring
that equals `t` up to ASCII letter case, then `hasTerm` applied to the pattern
that `main` builds from `t` and to `b` is true. -/
theorem hasTerm_case_insensitive (t b : String) (h : containsUpToCase t b) :
    hasTerm MatchString (escaped QuoteMeta t) b = true := by
  obtain ⟨pre, mid, post, h1, h2⟩ := h
  exact (hasTerm_escaped_iff foldKey t b).2
    ⟨pre, mid, post, h1, foldKey_of_toLower mid t.data h2⟩

/-- Witness for C5: the term `Cat` matches bodies that contain `cat`, `CAT`
and `Cat`. -/
theorem hasTerm_case_insensitive_witness :
    (containsUpToCase "Cat" "a cat sat" ∧
      hasTerm MatchString (escaped QuoteMeta "Cat") "a cat sat" = true) ∧
    (containsUpToCase "Cat" "a CAT sat" ∧
      hasTerm MatchString (escaped QuoteMeta "Cat") "a CAT sat" = true) ∧
    (containsUpToCase "Cat" "a Cat sat" ∧
      hasTerm MatchString (escaped QuoteMeta "Cat") "a Cat sat" = true) :=
  have h1 : containsUpToCase "Cat" "a cat sat" :=
    ⟨['a', ' '], ['c', 'a', 't'], [' ', 's', 'a', 't'], by decide, by decide⟩
  have h2 : containsUpToCase "Cat" "a CAT sat" :=
    ⟨['a', ' '], ['C', 'A', 'T'], [' ', 's', 'a', 't'], by decide, by decide⟩
  have h3 : containsUpToCase "Cat" "a Cat sat" :=
    ⟨['a', ' '], ['C', 'a', 't'], [' ', 's', 'a', 't'], by decide, by decide⟩
  ⟨⟨h1, hasTerm_case_insensitive "Cat" "a cat sat" h1⟩,
   ⟨h2, hasTerm_case_insensitive "Cat" "a CAT sat" h2⟩,
   ⟨h3, hasTerm_case_insensitive "Cat" "a Cat sat" h3⟩⟩

/-- C9, as stated, fails: the term `a.c` read as a case-insensitive regular
expression matches the body `abc`, but the matcher stage, given the pattern
`main` builds from `a.c`, reports no match for `abc`. -/
theorem term_as_pattern_counterexample :
    ¬ ∀ t b : String,
      hasTerm MatchString (escaped QuoteMeta t) b = true ↔
        MatchString ("(?i)" ++ t) b = .ok true := by
  intro h
  have h1 : MatchString ("(?i)" ++ "a.c") "abc" = .ok true := rfl
  have h2 := (h "a.c" "abc").2 h1
  revert h2
  decide

/-- C9, amended: `main` escapes the term with `QuoteMeta`, so for every search
term `t` and body `b` the matcher stage reports a match exactly when `b`
contains a substring whose characters equal those of `t` up to case folding,
whatever the case folding table `key` of the library is (two characters are
equal up to case folding when the table gives them the same representative);
metacharacters in the term stand for themselves (the term `a.c` does not
match the body `abc`, it matches the body `xA.Cx`). -/
theorem term_is_literal (key : Char → Char) (t b : String) :
    (hasTerm (MatchStringWith key) (escaped QuoteMeta t) b = true ↔
      ∃ pre mid post, b.data = pre ++ mid ++ post ∧
        mid.map key = t.data.map key) ∧
    escaped QuoteMeta "a.c" = "(?i)a\\.c" ∧
    hasTerm MatchString (escaped QuoteMeta "a.c") "abc" = false ∧
    hasTerm MatchString (escaped QuoteMeta "a.c") "xA.Cx" = true := by
  refine ⟨hasTerm_escaped_iff key t b, by decide, by decide, by decide⟩

end UrlFetcher
